import Mathlib

/-!
Verification development for the vanity-address mining engine
(`wallet_engine.js`): a shallow embedding of the pattern matcher, the
worker mining loop, the controller lifecycle (`start` and `stop`), the
persistence and encryption layer (`encrypt`, `decrypt`, `saveWallet`,
`loadWallets`), together with theorems settling the specification claims.

Conventions of the embedding:
* JavaScript strings are Lean `String`s; the ASCII-only operations used by
  the engine (`toUpperCase`, `startsWith`, `endsWith`, `split(',')`,
  `trim`) are embedded as structurally recursive functions over `s.data`
  so that closed instances evaluate by `decide` and `rfl`.
* The external cryptographic capability (scrypt, AES-256-GCM) and the JSON
  codec of the JavaScript runtime are external collaborators of the core;
  they are modelled as a capability record (`CryptoCap`) whose fields
  carry their documented contracts.  A concrete toy instance (`toyCap`)
  shows the capability record is inhabited and drives the closed
  counterexamples.
* Asynchronous effects (worker messages, callbacks, filesystem writes) are
  made explicit: handlers return a new state together with the ordered
  list of emitted events, and filesystem outcomes are `Except` parameters.
-/

/-! ## Base58 alphabet and validation (wallet_engine.js lines 20-57) -/

/-- The Base58 alphabet for Solana addresses, verbatim from the source. -/
def BASE58_ALPHABET : String :=
  "123456789ABCDEFGHJKLMNPQRSTUVWXYZabcdefghijkmnopqrstuvwxyz"

/-- Membership test backing the `VALID_SUFFIX_CHARS` set of the source. -/
def validBase58Char (c : Char) : Bool :=
  BASE58_ALPHABET.data.contains c

/-- Embeds `validateSuffix`: scan the string and report the FIRST character
outside the Base58 alphabet (`some c` plays the role of
`{valid:false, invalidChar:c}`; `none` is `{valid:true}`). -/
def validateSuffix (s : String) : Option Char :=
  s.data.find? (fun c => !(validBase58Char c))

/-- JavaScript `String.prototype.toUpperCase` on the ASCII strings the
engine manipulates: uppercase each character. -/
def jsToUpper (s : String) : String :=
  String.mk (s.data.map Char.toUpper)

/-- JavaScript `candidate.startsWith(target)`. -/
def jsStartsWith (s target : String) : Bool :=
  target.data.isPrefixOf s.data

/-- JavaScript `candidate.endsWith(target)`. -/
def jsEndsWith (s target : String) : Bool :=
  target.data.isSuffixOf s.data

/-- Helper for `jsSplitComma`: accumulate the current field (reversed). -/
def splitCommaAux : List Char → List Char → List String
  | [], acc => [String.mk acc.reverse]
  | c :: rest, acc =>
    if c = ',' then String.mk acc.reverse :: splitCommaAux rest []
    else splitCommaAux rest (c :: acc)

/-- JavaScript `s.split(',')`. -/
def jsSplitComma (s : String) : List String :=
  splitCommaAux s.data []

/-- JavaScript `s.trim()`: strip leading and trailing whitespace. -/
def jsTrim (s : String) : String :=
  String.mk (((s.data.dropWhile Char.isWhitespace).reverse.dropWhile
    Char.isWhitespace).reverse)

/-- Helper for `parseSuffixes`: the source loops over the parsed suffixes
and returns on the first invalid one, carrying the offending character and
the offending suffix. -/
def firstInvalidSuffix : List String → Option (Char × String)
  | [] => none
  | s :: rest =>
    match validateSuffix s with
    | some c => some (c, s)
    | none => firstInvalidSuffix rest

/-- Embeds `parseSuffixes`: empty or all-whitespace input is valid with no
suffixes; otherwise split on commas, trim, drop empties, and validate each,
failing with `(invalidChar, invalidSuffix)` on the first bad one. -/
def parseSuffixes (suffixString : String) : Except (Char × String) (List String) :=
  if jsTrim suffixString = "" then Except.ok []
  else
    let sfxs := ((jsSplitComma suffixString).map jsTrim).filter (fun s => s ≠ "")
    match firstInvalidSuffix sfxs with
    | some (c, s) => Except.error (c, s)
    | none => Except.ok sfxs

/-! ## The pattern matcher inlined in the worker loop (lines 64-134) -/

/-- The per-worker search criteria (`workerData.criteria`): a prefix
string, a list of suffixes, and the case-sensitivity flag. -/
structure WCriteria where
  prefixStr : String
  suffixes : List String
  matchCase : Bool
deriving DecidableEq

/-- The case rule applied to candidates and patterns alike:
`matchCase ? s : s.toUpperCase()` (lines 69-70, 109). -/
def caseNorm (matchCase : Bool) (s : String) : String :=
  if matchCase then s else jsToUpper s

/-- The `targetPre` value of the worker setup (line 69). -/
def targetPre (c : WCriteria) : String :=
  caseNorm c.matchCase c.prefixStr

/-- The `targetSuffixes` value of the worker setup (line 70). -/
def targetSuffixes (c : WCriteria) : List String :=
  c.suffixes.map (caseNorm c.matchCase)

/-- The matcher inlined in `mineLoop` (lines 108-134): returns the overall
match flag together with `matchedSuffix`.  A failed prefix check
short-circuits (`continue`) before any suffix comparison; the suffix scan
takes the first configured suffix (insertion order) whose normalized form
matches and keeps it as `matchedSuffix`. -/
def matchOutcome (c : WCriteria) (pk : String) : Bool × String :=
  let tp := targetPre c
  let ts := targetSuffixes c
  let hasPre : Bool := decide (0 < tp.length)
  let hasSuf : Bool := decide (0 < ts.length)
  let checkPk := caseNorm c.matchCase pk
  let preOk : Bool := !hasPre || jsStartsWith checkPk tp
  if !preOk then (false, "")
  else
    let firstHit := ts.find? (fun t => jsEndsWith checkPk t)
    let sufOk : Bool := !hasSuf || firstHit.isSome
    (preOk && sufOk, firstHit.getD "")

/-! ## Worker loop state and messages (lines 64-190) -/

/-- One candidate delivered by the external keypair capability
(`Keypair.generate()` + `toBase58()`): the encoded address, the 64 secret
key bytes, and the generation instant (for `foundAt`). -/
structure Cand where
  pk : String
  secret : List Nat
  time : Nat
deriving DecidableEq

/-- Mutable worker-local state: `localAttempts`, `running`, and the
rotating `recentAddresses` sample (lines 74-76). -/
structure WState where
  localAttempts : Nat
  running : Bool
  recentAddresses : List String
deriving DecidableEq

/-- The immutable per-worker context from `workerData` (line 65). -/
structure WorkerCtx where
  workerId : Nat
  criteria : WCriteria
  batchSize : Nat
deriving DecidableEq

/-- Payload of a `found` message (lines 137-151).  The hex and base58
renderings of the same secret bytes are external encodings and elided. -/
structure FoundMsg where
  workerId : Nat
  address : String
  secretKeyArray : List Nat
  matchedSuffix : String
  matchedPrefix : String
  attempts : Nat
  foundAt : Nat
deriving DecidableEq

/-- Messages a worker posts to the controller.  The instantaneous rate of
a progress message is wall-clock telemetry and not modelled. -/
inductive WMsg where
  | found (m : FoundMsg)
  | progress (workerId attempts : Nat) (recent : List String)
  | stopped (workerId attempts : Nat)
  | error (workerId : Nat) (message : String)
deriving DecidableEq

/-- Recognizes the final acknowledgment a worker emits when it leaves its
loop. -/
def WMsg.isStopped : WMsg → Bool
  | .stopped _ _ => true
  | _ => false

/-- One iteration of the tight inner loop (lines 92-153): generate a
candidate, bump `localAttempts`, sample every 500th address (push and
shift at 5), run the inlined matcher, and emit a `found` message on a
match WITHOUT touching `running`. -/
def processAttempt (ctx : WorkerCtx) (st : WState) (cand : Cand) :
    WState × Option WMsg :=
  let attempts := st.localAttempts + 1
  let recent :=
    if attempts % 500 == 0 then
      let r := st.recentAddresses ++ [cand.pk]
      if r.length > 5 then r.drop 1 else r
    else st.recentAddresses
  let st' : WState :=
    { st with localAttempts := attempts, recentAddresses := recent }
  let mo := matchOutcome ctx.criteria cand.pk
  if mo.1 then
    (st', some (WMsg.found
      { workerId := ctx.workerId
        address := cand.pk
        secretKeyArray := cand.secret
        matchedSuffix := mo.2
        matchedPrefix :=
          if decide (0 < (targetPre ctx.criteria).length) then
            targetPre ctx.criteria
          else ""
        attempts := attempts
        foundAt := cand.time }))
  else (st', none)

/-- The inner `for` loop of a micro-batch (line 92): each iteration runs
only while `running` holds. -/
def mineRound (ctx : WorkerCtx) : WState → List Cand → WState × List WMsg
  | st, [] => (st, [])
  | st, c :: cs =>
    if st.running then
      let r := processAttempt ctx st c
      let rest := mineRound ctx r.1 cs
      (rest.1, r.2.toList ++ rest.2)
    else (st, [])

/-- The periodic progress report after a micro-batch (lines 157-171):
emitted when `localAttempts` hits the report interval, clearing the
retained samples. -/
def progressReport (ctx : WorkerCtx) (st : WState) : WState × List WMsg :=
  if st.localAttempts % 5000 == 0 then
    ({ st with recentAddresses := [] },
     [WMsg.progress ctx.workerId st.localAttempts st.recentAddresses])
  else (st, [])

/-- Embeds `mineLoop` (lines 85-182) over a finite schedule of rounds,
each a micro-batch of candidates paired with whether a stop signal is
delivered at the following yield boundary.  The loop runs while `running`
holds and acknowledges with a `stopped` message once it does not. -/
def mineLoop (ctx : WorkerCtx) :
    WState → List (List Cand × Bool) → WState × List WMsg
  | st, [] =>
    if st.running then (st, [])
    else (st, [WMsg.stopped ctx.workerId st.localAttempts])
  | st, (cands, sig) :: rest =>
    if st.running then
      let r1 := mineRound ctx st cands
      let r2 := progressReport ctx r1.1
      let st3 := if sig then { r2.1 with running := false } else r2.1
      let r3 := mineLoop ctx st3 rest
      (r3.1, r1.2 ++ r2.2 ++ r3.2)
    else (st, [WMsg.stopped ctx.workerId st.localAttempts])

/-- Total number of candidates offered by a schedule of rounds. -/
def totalCands (rounds : List (List Cand × Bool)) : Nat :=
  (rounds.map (fun r => r.1.length)).sum

/-! ## Persistence and encryption layer (lines 216-312) -/

/-- The persisted encrypted record shape `{iv, authTag, data}` (all
hex-encoded strings). -/
structure EncRecord where
  iv : String
  authTag : String
  data : String
deriving DecidableEq

/-- The external cryptographic and JSON capabilities the persistence layer
consumes, bundled with their documented contracts.  `J` is the type of
JSON-serializable wallet records; `gcmEnc key iv plaintext` returns the
hex ciphertext with its authentication tag, and `gcmDec` rejects bad
tags with an error (AEAD). -/
structure CryptoCap (J : Type) where
  stringify : J → String
  parse : String → Except String J
  wrapStringify : EncRecord → String
  wrapParse : String → Except String EncRecord
  toHex : String → String
  fromHex : String → String
  scrypt : String → String → Nat → String
  gcmEnc : String → String → String → String × String
  gcmDec : String → String → String → String → Except String String
  parse_stringify : ∀ v, parse (stringify v) = Except.ok v
  wrapParse_wrapStringify : ∀ w, wrapParse (wrapStringify w) = Except.ok w
  fromHex_toHex : ∀ s, fromHex (toHex s) = s
  gcmDec_gcmEnc : ∀ k iv s, gcmDec k iv (gcmEnc k iv s).2 (gcmEnc k iv s).1 = Except.ok s

namespace VanityForge

/-- Embeds `VanityForge.encrypt` (lines 219-235): with no configured key
the record is stored as plaintext JSON; otherwise scrypt-derive an
AES-256-GCM key with the fixed application salt, encrypt under a fresh
`iv` (passed in for the `crypto.randomBytes(16)` call), and wrap
`{iv, authTag, data}` as JSON. -/
def encrypt {J : Type} (cap : CryptoCap J) (key : Option String) (iv : String)
    (payload : J) : String :=
  match key with
  | none => cap.stringify payload
  | some pass =>
    let k := cap.scrypt pass "solana-forge-salt" 32
    let enc := cap.gcmEnc k iv (cap.stringify payload)
    cap.wrapStringify { iv := cap.toHex iv, authTag := cap.toHex enc.2, data := enc.1 }

/-- Embeds `VanityForge.decrypt` (lines 240-252): plaintext mode parses
directly; encrypted mode unwraps `{iv, authTag, data}`, re-derives the
key, authenticates and decrypts, then parses the plaintext.  Every step
that can throw in JavaScript is an `Except`. -/
def decrypt {J : Type} (cap : CryptoCap J) (key : Option String) (s : String) :
    Except String J :=
  match key with
  | none => cap.parse s
  | some pass =>
    match cap.wrapParse s with
    | Except.error e => Except.error e
    | Except.ok w =>
      let k := cap.scrypt pass "solana-forge-salt" 32
      match cap.gcmDec k (cap.fromHex w.iv) (cap.fromHex w.authTag) w.data with
      | Except.error e => Except.error e
      | Except.ok pt => cap.parse pt

/-- Embeds `VanityForge.saveWallet` (lines 258-291): the body performs
`mkdir`, the encrypted record write, and the CLI keyfile write inside a
try/catch that returns the filepath on success and `null` on any failure.
The three I/O outcomes are parameters; the written contents (the
`encrypt`ed record and the raw key array) do not affect the result. -/
def saveWallet (mkdirE writeE writeCliE : Except String Unit)
    (filepath : String) : Option String :=
  match mkdirE with
  | Except.error _ => none
  | Except.ok _ =>
    match writeE with
    | Except.error _ => none
    | Except.ok _ =>
      match writeCliE with
      | Except.error _ => none
      | Except.ok _ => some filepath

/-- The filename filter of `loadWallets` (line 302). -/
def isWalletFile (name : String) : Bool :=
  jsStartsWith name "wallet_" && jsEndsWith name ".json"

/-- The enumeration loop inside the try block of `loadWallets` (lines
298-308): read and decrypt each `wallet_*.json` in order, propagating the
first thrown error.  A directory entry is its name paired with the
outcome of reading it. -/
def loadFiles {J : Type} (cap : CryptoCap J) (key : Option String) :
    List (String × Except String String) → Except String (List J)
  | [] => Except.ok []
  | (name, contentE) :: rest =>
    if isWalletFile name then
      match contentE with
      | Except.error e => Except.error e
      | Except.ok content =>
        match decrypt cap key content with
        | Except.error e => Except.error e
        | Except.ok w =>
          match loadFiles cap key rest with
          | Except.error e => Except.error e
          | Except.ok ws => Except.ok (w :: ws)
    else loadFiles cap key rest

/-- The whole try block of `loadWallets`: `fs.readdir` may itself fail
(missing data directory). -/
def loadWalletsE {J : Type} (cap : CryptoCap J) (key : Option String)
    (dirE : Except String (List (String × Except String String))) :
    Except String (List J) :=
  match dirE with
  | Except.error e => Except.error e
  | Except.ok files => loadFiles cap key files

/-- Embeds `VanityForge.loadWallets` (lines 296-312): the surrounding
catch turns ANY thrown error into the empty list. -/
def loadWallets {J : Type} (cap : CryptoCap J) (key : Option String)
    (dirE : Except String (List (String × Except String String))) : List J :=
  match loadWalletsE cap key dirE with
  | Except.ok ws => ws
  | Except.error _ => []

end VanityForge

/-- A read or decryption outcome on which the load of one file throws:
either the read itself failed, or the content does not decrypt. -/
def failsToLoad {J : Type} (cap : CryptoCap J) (key : Option String)
    (ce : Except String String) : Prop :=
  (∃ e, ce = Except.error e) ∨
    (∃ c, ce = Except.ok c ∧ ∃ e, VanityForge.decrypt cap key c = Except.error e)

/-! ## Controller state, events and lifecycle (lines 195-519) -/

/-- A discovery record as kept by the controller (`walletData` in the
found handler, lines 396-409): created once per match, `savedPath` is the
persistence outcome (`null` on a failed write). -/
structure FoundWallet where
  address : String
  secretKeyArray : List Nat
  matchedSuffix : String
  matchedPrefix : String
  attempts : Nat
  foundAt : Nat
  savedPath : Option String
deriving DecidableEq

/-- Observable controller actions, in program order: stop signals and
terminations broadcast to workers, worker spawns, and the `onError`,
`onFound` callbacks together with the completion of a persistence write. -/
inductive CEvent where
  | stopSignal (workerId : Nat)
  | terminate (workerId : Nat)
  | spawn (workerId : Nat)
  | errorCb (message : String)
  | saveDone (result : Option String)
  | foundCb (wallet : FoundWallet) (totalFound : Nat)
deriving DecidableEq

/-- Recognizes a worker spawn. -/
def CEvent.isSpawn : CEvent → Bool
  | .spawn _ => true
  | _ => false

/-- Recognizes an `onError` callback. -/
def CEvent.isErrorCb : CEvent → Bool
  | .errorCb _ => true
  | _ => false

/-- Recognizes a stop signal to a worker. -/
def CEvent.isStopSignal : CEvent → Bool
  | .stopSignal _ => true
  | _ => false

/-- Controller state (constructor of `VanityForge`, lines 196-214, plus
`currentCriteria`): worker ids, the running flag, the in-memory discovery
list, and the telemetry fields the claims touch. -/
structure CState where
  isRunning : Bool
  workers : List Nat
  foundWallets : List FoundWallet
  activeWorkers : Nat
  foundCount : Nat
  currentCriteria : Option WCriteria
deriving DecidableEq

/-- The criteria object passed to `start` (lines 317-323): the prefix,
the raw comma-separated suffix string (the `suffixString`/`suffix` input
aliases folded together), the case flag, and the requested worker count
and batch size where `0` stands for a JavaScript-falsy absent field. -/
structure StartCriteria where
  prefixStr : String
  suffixString : String
  matchCase : Bool
  workers : Nat
  batchSize : Nat
deriving DecidableEq

/-- An ASCII single quote, used by the error message templates. -/
def quoteCh : String :=
  String.singleton (Char.ofNat 39)

/-- The `onError` message for an invalid suffix (line 325). -/
def invalidSuffixMsg (c : Char) (sfx : String) : String :=
  "Invalid character " ++ quoteCh ++ String.singleton c ++ quoteCh ++
    " in suffix " ++ quoteCh ++ sfx ++ quoteCh ++ ". Use Base58 only."

/-- The `onError` message for an invalid prefix (line 333): it names the
offending character but does not echo the prefix text. -/
def invalidPrefixMsg (c : Char) : String :=
  "Invalid character " ++ quoteCh ++ String.singleton c ++ quoteCh ++
    " in prefix. Use Base58 only."

/-- The `onError` message when neither a prefix nor a suffix is given
(line 340). -/
def noTargetMsg : String :=
  "Please enter a prefix or at least one suffix to search for."

/-- Effective worker count (lines 362-364):
`Math.max(1, Math.min(requested, NUM_WORKERS))` with a falsy `workers`
field defaulting to `NUM_WORKERS`. -/
def clampWorkers (maxWorkers requested : Nat) : Nat :=
  max 1 (min (if requested == 0 then maxWorkers else requested) maxWorkers)

namespace VanityForge

/-- Embeds `VanityForge.stop` (lines 481-496): clear the running flag,
post a stop signal to every worker, terminate them all, empty the worker
list and zero the active-worker telemetry. -/
def stop (st : CState) : CState × List CEvent :=
  ({ st with isRunning := false, workers := [], activeWorkers := 0 },
   st.workers.map CEvent.stopSignal ++ st.workers.map CEvent.terminate)

/-- Embeds `VanityForge.start` (lines 317-441), spawning abstracted to
`spawn` events: an already-running controller is auto-stopped first; the
suffix string and the prefix are validated (rejections fire `onError` and
return `false` with no spawn); a successful start resets the discovery
list, installs the new criteria, and spawns the clamped worker count. -/
def start (maxWorkers : Nat) (st : CState) (c : StartCriteria) :
    CState × Bool × List CEvent :=
  let s0 := if st.isRunning then stop st else (st, [])
  match parseSuffixes c.suffixString with
  | Except.error (ch, sfx) =>
    (s0.1, false, s0.2 ++ [CEvent.errorCb (invalidSuffixMsg ch sfx)])
  | Except.ok sfxs =>
    match (if c.prefixStr ≠ "" then validateSuffix c.prefixStr else none) with
    | some ch => (s0.1, false, s0.2 ++ [CEvent.errorCb (invalidPrefixMsg ch)])
    | none =>
      if c.prefixStr = "" && sfxs.isEmpty then
        (s0.1, false, s0.2 ++ [CEvent.errorCb noTargetMsg])
      else
        let n := clampWorkers maxWorkers c.workers
        let ids := List.range n
        ({ isRunning := true
           workers := ids
           foundWallets := []
           activeWorkers := n
           foundCount := 0
           currentCriteria := some ⟨c.prefixStr, sfxs, c.matchCase⟩ },
         true, s0.2 ++ ids.map CEvent.spawn)

/-- Embeds the `found` branch of the worker message handler (lines
394-421): build the wallet record, await `saveWallet` (its result is the
`saveRes` parameter), attach `savedPath`, append to the discovery list,
bump `foundCount`, and only then fire `onFound` with the running total.
Nothing here touches `isRunning` or signals any worker. -/
def handleFound (st : CState) (msg : FoundMsg) (saveRes : Option String) :
    CState × List CEvent :=
  let wd : FoundWallet :=
    { address := msg.address
      secretKeyArray := msg.secretKeyArray
      matchedSuffix := msg.matchedSuffix
      matchedPrefix := msg.matchedPrefix
      attempts := msg.attempts
      foundAt := msg.foundAt
      savedPath := saveRes }
  let fw := st.foundWallets ++ [wd]
  ({ st with foundWallets := fw, foundCount := fw.length },
   [CEvent.saveDone saveRes, CEvent.foundCb wd fw.length])

end VanityForge

/-! ## Substring containment (for the diagnostic-message claims) -/

/-- Whether `needle` occurs contiguously inside the character list. -/
def containsSub (needle : List Char) : List Char → Bool
  | [] => needle.isEmpty
  | c :: rest => needle.isPrefixOf (c :: rest) || containsSub needle rest

/-- Whether `needle` occurs contiguously inside `hay`. -/
def containsStr (hay needle : String) : Bool :=
  containsSub needle.data hay.data

/-! ## A concrete capability instance

The capability record would be worthless if it were uninhabited, and the
closed counterexamples need an executable instance.  `encStr` is an
injective, length-directed rendering of a string (a unary length, a
marker, then the raw characters) from which `decStr` recovers the string
and the remaining input; a trivial identity cipher completes the
instance. -/

/-- Length-directed rendering of a string into a character stream. -/
def encStr (s : String) : List Char :=
  List.replicate s.data.length '1' ++ '#' :: s.data

/-- Recover the first `encStr`-rendered string and the rest of the
stream. -/
def decStr (l : List Char) : Option (String × List Char) :=
  let n := (l.takeWhile (fun c => c == '1')).length
  let r0 := l.drop n
  if r0.head? = some '#' then
    let r := r0.tail
    if n ≤ r.length then some (String.mk (r.take n), r.drop n) else none
  else none

/-- Inversion: `decStr` recovers what `encStr` rendered, leaving the rest of the stream. -/
def encDecFacts : ∀ (s : String) (rest : List Char),
    decStr (encStr s ++ rest) = some (s, rest) := by
  intro s rest
  obtain ⟨sd⟩ := s
  have h1 : (('#' : Char) == '1') = false := by decide
  have h2 : (('1' : Char) == '1') = true := by decide
  have hA : ∀ (n : Nat) (t : List Char),
      List.takeWhile (fun c => c == '1') (List.replicate n '1' ++ '#' :: t)
        = List.replicate n '1' := by
    intro n t
    induction n with
    | zero => simp [List.takeWhile_cons, h1]
    | succ k ih => simp [List.replicate_succ, List.takeWhile_cons, h2, ih]
  have hshape : encStr (String.mk sd) ++ rest
      = List.replicate sd.length '1' ++ '#' :: (sd ++ rest) := by
    simp [encStr, List.append_assoc]
  have hdrop : (List.replicate sd.length '1' ++ '#' :: (sd ++ rest)).drop sd.length
      = '#' :: (sd ++ rest) := by
    have h := List.drop_left (List.replicate sd.length '1') ('#' :: (sd ++ rest))
    rw [List.length_replicate] at h
    exact h
  rw [hshape]
  simp only [decStr, hA, List.length_replicate, hdrop, List.head?_cons,
    List.tail_cons, Option.some.injEq, if_pos rfl]
  rw [if_pos (by simp)]
  simp [List.take_left, List.drop_left]

/-- Toy JSON rendering: a single `encStr` stream that must be consumed
entirely. -/
def toyParse (s : String) : Except String String :=
  match decStr s.data with
  | some (v, []) => Except.ok v
  | _ => Except.error "parse"

/-- Toy rendering of the `{iv, authTag, data}` wrapper: three `encStr`
streams in sequence. -/
def toyWrapParse (s : String) : Except String EncRecord :=
  match decStr s.data with
  | some (a, r1) =>
    match decStr r1 with
    | some (b, r2) =>
      match decStr r2 with
      | some (c, []) => Except.ok ⟨a, b, c⟩
      | _ => Except.error "wrap"
    | _ => Except.error "wrap"
  | _ => Except.error "wrap"

/-- A concrete executable capability: the toy codec above with an
identity cipher and constant key derivation. -/
def toyCap : CryptoCap String where
  stringify := fun v => String.mk (encStr v)
  parse := toyParse
  wrapStringify := fun w => String.mk (encStr w.iv ++ encStr w.authTag ++ encStr w.data)
  wrapParse := toyWrapParse
  toHex := fun s => s
  fromHex := fun s => s
  scrypt := fun _ _ _ => "k"
  gcmEnc := fun _ _ s => (s, "tag")
  gcmDec := fun _ _ t ct => if t = "tag" then Except.ok ct else Except.error "auth"
  parse_stringify := by
    intro v
    have h := encDecFacts v []
    rw [List.append_nil] at h
    simp [toyParse, h]
  wrapParse_wrapStringify := by
    intro w
    obtain ⟨wi, wa, wd⟩ := w
    have h1 := encDecFacts wi (encStr wa ++ encStr wd)
    have h2 := encDecFacts wa (encStr wd)
    have h3 := encDecFacts wd []
    rw [List.append_nil] at h3
    simp [toyWrapParse, List.append_assoc, h1, h2, h3]
  fromHex_toHex := fun _ => rfl
  gcmDec_gcmEnc := by intro k iv s; simp

/-! ## Concrete fixtures for the closed witnesses and counterexamples -/

/-- An idle controller, as built by the constructor. -/
def stIdle : CState := ⟨false, [], [], 0, 0, none⟩

/-- A running controller with two live workers. -/
def stRun : CState := ⟨true, [0, 1], [], 2, 0, none⟩

/-- Valid criteria: prefix `A`, no suffixes, one worker. -/
def cGood : StartCriteria := ⟨"A", "", false, 1, 0⟩

/-- Criteria whose prefix `0a` holds the non-Base58 character `0`. -/
def cBadPre : StartCriteria := ⟨"0a", "", false, 0, 0⟩

/-- Criteria whose suffix `ab0` holds the non-Base58 character `0`. -/
def cBadSfx : StartCriteria := ⟨"", "ab0", false, 0, 0⟩

/-- A case-sensitive worker context searching for the prefix `A`. -/
def ctxW : WorkerCtx := ⟨0, ⟨"A", [], true⟩, 50⟩

/-- Fresh worker state. -/
def stW : WState := ⟨0, true, []⟩

/-- One round of two candidates (the first matches `ctxW`), no stop
signal. -/
def roundsW : List (List Cand × Bool) :=
  [([⟨"AB", [1, 2], 5⟩, ⟨"CD", [3], 6⟩], false)]

/-- A concrete `found` message. -/
def msgW : FoundMsg := ⟨0, "AB", [1, 2], "", "A", 7, 99⟩

/-- A stored-wallet directory in plaintext mode: `wallet_a.json` decrypts
under `toyCap` (it is `toyCap.stringify "g"`), `wallet_b.json` is
corrupt. -/
def filesW : List (String × Except String String) :=
  [("wallet_a.json", Except.ok "1#g"), ("wallet_b.json", Except.ok "X")]

/-- Case-insensitive criteria with two suffixes that both match the
fixture address `Qxy`. -/
def c8cex : WCriteria := ⟨"", ["xy", "y"], false⟩

/-! ## Helper lemmas: strings and the matcher -/

theorem string_eq_empty_iff (s : String) : s = "" ↔ s.data = [] :=
  String.ext_iff

theorem string_length_eq_zero_iff (s : String) : s.length = 0 ↔ s = "" := by
  rw [string_eq_empty_iff]
  exact List.length_eq_zero

theorem caseNorm_eq_empty_iff (mc : Bool) (s : String) :
    caseNorm mc s = "" ↔ s = "" := by
  cases mc with
  | false =>
    simp only [caseNorm, Bool.false_eq_true, if_false, jsToUpper,
      string_eq_empty_iff, List.map_eq_nil_iff]
  | true => simp [caseNorm]

theorem targetPre_eq_empty_iff (c : WCriteria) :
    targetPre c = "" ↔ c.prefixStr = "" := by
  rw [targetPre]
  exact caseNorm_eq_empty_iff _ _

theorem matchOutcome_fst (c : WCriteria) (pk : String) :
    (matchOutcome c pk).1 =
      ((!(decide (0 < (targetPre c).length)) ||
          jsStartsWith (caseNorm c.matchCase pk) (targetPre c)) &&
       (!(decide (0 < (targetSuffixes c).length)) ||
          ((targetSuffixes c).find?
            (fun t => jsEndsWith (caseNorm c.matchCase pk) t)).isSome)) := by
  unfold matchOutcome
  dsimp only
  split
  next h =>
    rw [Bool.not_eq_true'] at h
    rw [h]
    simp
  next h => rfl

theorem matchOutcome_pre_clause (c : WCriteria) (pk : String) :
    (!(decide (0 < (targetPre c).length)) ||
        jsStartsWith (caseNorm c.matchCase pk) (targetPre c)) = true ↔
      (c.prefixStr = "" ∨
        jsStartsWith (caseNorm c.matchCase pk) (caseNorm c.matchCase c.prefixStr) = true) := by
  rw [Bool.or_eq_true, Bool.not_eq_true', decide_eq_false_iff_not, Nat.not_lt,
    Nat.le_zero, string_length_eq_zero_iff, targetPre_eq_empty_iff]
  rfl

theorem matchOutcome_suf_clause (c : WCriteria) (pk : String) :
    (!(decide (0 < (targetSuffixes c).length)) ||
        ((targetSuffixes c).find?
          (fun t => jsEndsWith (caseNorm c.matchCase pk) t)).isSome) = true ↔
      (c.suffixes = [] ∨
        ∃ s ∈ c.suffixes,
          jsEndsWith (caseNorm c.matchCase pk) (caseNorm c.matchCase s) = true) := by
  rw [Bool.or_eq_true, Bool.not_eq_true', decide_eq_false_iff_not, Nat.not_lt,
    Nat.le_zero, List.length_eq_zero]
  constructor
  · rintro (h | h)
    · left
      rw [targetSuffixes] at h
      exact List.map_eq_nil_iff.mp h
    · right
      rw [List.find?_isSome] at h
      obtain ⟨t, ht, hp⟩ := h
      rw [targetSuffixes, List.mem_map] at ht
      obtain ⟨s, hs, rfl⟩ := ht
      exact ⟨s, hs, hp⟩
  · rintro (h | h)
    · left
      rw [targetSuffixes, h]
      rfl
    · right
      rw [List.find?_isSome]
      obtain ⟨s, hs, hp⟩ := h
      exact ⟨caseNorm c.matchCase s, by rw [targetSuffixes]; exact List.mem_map.mpr ⟨s, hs, rfl⟩, hp⟩

theorem matchOutcome_fst_iff (c : WCriteria) (pk : String) :
    (matchOutcome c pk).1 = true ↔
      ((c.prefixStr = "" ∨
          jsStartsWith (caseNorm c.matchCase pk) (caseNorm c.matchCase c.prefixStr) = true) ∧
       (c.suffixes = [] ∨
          ∃ s ∈ c.suffixes,
            jsEndsWith (caseNorm c.matchCase pk) (caseNorm c.matchCase s) = true)) := by
  rw [matchOutcome_fst, Bool.and_eq_true, matchOutcome_pre_clause,
    matchOutcome_suf_clause]

theorem processAttempt_emits_iff_matchOutcome (ctx : WorkerCtx) (st : WState)
    (cand : Cand) :
    ((processAttempt ctx st cand).2).isSome = (matchOutcome ctx.criteria cand.pk).1 := by
  unfold processAttempt
  dsimp only
  split
  next h => simp [h]
  next h =>
    simp only [Option.isSome_none]
    exact ((Bool.not_eq_true _).mp h).symm

/-- Claim C1: for every encoded address and criteria (in particular every
validated one), the matcher inlined in the worker loop reports an overall
match exactly when the prefix clause holds (empty prefix, or the address
starts with the prefix under the case rule) and the suffix clause holds
(no suffixes, or the address ends with at least one configured suffix
under the case rule). -/
theorem mineLoop_match_iff (ctx : WorkerCtx) (st : WState) (cand : Cand) :
    ((processAttempt ctx st cand).2).isSome = true ↔
      ((ctx.criteria.prefixStr = "" ∨
          jsStartsWith (caseNorm ctx.criteria.matchCase cand.pk)
            (caseNorm ctx.criteria.matchCase ctx.criteria.prefixStr) = true) ∧
       (ctx.criteria.suffixes = [] ∨
          ∃ s ∈ ctx.criteria.suffixes,
            jsEndsWith (caseNorm ctx.criteria.matchCase cand.pk)
              (caseNorm ctx.criteria.matchCase s) = true)) := by
  rw [processAttempt_emits_iff_matchOutcome]
  exact matchOutcome_fst_iff _ _

/-- Claim C9: matching with `matchCase = false` coincides with exact-case
matching after both the candidate address and every pattern string have
been normalized to upper case (the single case the engine uses). -/
theorem matches_caseInsensitive_eq_normalized (p : String) (sfx : List String)
    (pk : String) :
    matchOutcome ⟨p, sfx, false⟩ pk
      = matchOutcome ⟨jsToUpper p, sfx.map jsToUpper, true⟩ (jsToUpper pk) := by
  have hf : caseNorm false = jsToUpper := funext fun _ => rfl
  have ht : caseNorm true = fun s => s := funext fun _ => rfl
  simp [matchOutcome, targetPre, targetSuffixes, hf, ht, List.map_map,
    Function.comp_def]

/-- Counterexample to claim C8 as stated: for the case-insensitive
criteria `c8cex` (suffixes `xy` then `y`) the address `Qxy` ends with
both configured suffixes under the case rule, the matcher reports a
match, and the tie-break does pick the first suffix in insertion order,
but the `matchedSuffix` it returns is the normalized pattern `XY`, which
is not the configured suffix string (`xy`). -/
theorem matchedSuffix_not_configured_cex :
    (jsEndsWith (caseNorm c8cex.matchCase "Qxy") (caseNorm c8cex.matchCase "xy") = true) ∧
    (jsEndsWith (caseNorm c8cex.matchCase "Qxy") (caseNorm c8cex.matchCase "y") = true) ∧
    ((matchOutcome c8cex "Qxy").1 = true) ∧
    ((matchOutcome c8cex "Qxy").2 = "XY") ∧
    "XY" ∉ c8cex.suffixes := by
  refine ⟨by decide, by decide, by decide, by decide, by decide⟩

/-- Claim C8 amended: when the matcher reports a match, `matchedSuffix`
is the first configured suffix in insertion order that matches under the
case rule, returned in its NORMALIZED form: the configured string itself
when `matchCase` is true, its upper-cased image when `matchCase` is
false. -/
theorem matchedSuffix_first_normalized (c : WCriteria) (pk s0 : String)
    (hm : (matchOutcome c pk).1 = true)
    (hf : c.suffixes.find?
        (fun s => jsEndsWith (caseNorm c.matchCase pk) (caseNorm c.matchCase s))
      = some s0) :
    (matchOutcome c pk).2 = caseNorm c.matchCase s0 := by
  have hmap : (targetSuffixes c).find?
      (fun t => jsEndsWith (caseNorm c.matchCase pk) t)
        = some (caseNorm c.matchCase s0) := by
    rw [targetSuffixes, List.find?_map,
      show ((fun t => jsEndsWith (caseNorm c.matchCase pk) t) ∘ caseNorm c.matchCase)
          = (fun s => jsEndsWith (caseNorm c.matchCase pk) (caseNorm c.matchCase s))
        from rfl,
      hf]
    rfl
  rw [matchOutcome_fst] at hm
  unfold matchOutcome
  dsimp only
  split
  next h =>
    rw [Bool.not_eq_true'] at h
    rw [h] at hm
    simp at hm
  next h =>
    rw [hmap]
    rfl

/-- Witness for the amended C8 theorem at the fixture input: the matcher
reports a match on `Qxy`, the first matching configured suffix is `xy`,
and `matchedSuffix` is its normalization `XY`. -/
theorem matchedSuffix_first_normalized_witness :
    ((matchOutcome c8cex "Qxy").1 = true) ∧
    (c8cex.suffixes.find?
        (fun s => jsEndsWith (caseNorm c8cex.matchCase "Qxy") (caseNorm c8cex.matchCase s))
      = some "xy") ∧
    ((matchOutcome c8cex "Qxy").2 = caseNorm c8cex.matchCase "xy") :=
  ⟨by decide, by decide,
    matchedSuffix_first_normalized c8cex "Qxy" "xy" (by decide) (by decide)⟩

/-! ## Worker loop liveness lemmas -/

theorem processAttempt_running (ctx : WorkerCtx) (st : WState) (cand : Cand) :
    ((processAttempt ctx st cand).1).running = st.running := by
  unfold processAttempt
  dsimp only
  split <;> rfl

theorem processAttempt_attempts (ctx : WorkerCtx) (st : WState) (cand : Cand) :
    ((processAttempt ctx st cand).1).localAttempts = st.localAttempts + 1 := by
  unfold processAttempt
  dsimp only
  split <;> rfl

theorem processAttempt_not_stopped (ctx : WorkerCtx) (st : WState) (cand : Cand) :
    ∀ m ∈ ((processAttempt ctx st cand).2).toList, m.isStopped = false := by
  unfold processAttempt
  dsimp only
  split
  next =>
    intro m hm
    simp only [Option.toList_some, List.mem_singleton] at hm
    subst hm
    rfl
  next =>
    intro m hm
    simp at hm

theorem mineRound_running (ctx : WorkerCtx) :
    ∀ (cands : List Cand) (st : WState),
      ((mineRound ctx st cands).1).running = st.running := by
  intro cands
  induction cands with
  | nil => intro st; rfl
  | cons c cs ih =>
    intro st
    simp only [mineRound]
    split
    next =>
      dsimp only
      rw [ih, processAttempt_running]
    next => rfl

theorem mineRound_attempts (ctx : WorkerCtx) :
    ∀ (cands : List Cand) (st : WState), st.running = true →
      ((mineRound ctx st cands).1).localAttempts = st.localAttempts + cands.length := by
  intro cands
  induction cands with
  | nil => intro st _; rfl
  | cons c cs ih =>
    intro st hrun
    simp only [mineRound]
    rw [if_pos hrun]
    dsimp only
    have hr : ((processAttempt ctx st c).1).running = true := by
      rw [processAttempt_running]; exact hrun
    rw [ih _ hr, processAttempt_attempts, List.length_cons]
    omega

theorem mineRound_not_stopped (ctx : WorkerCtx) :
    ∀ (cands : List Cand) (st : WState),
      ∀ m ∈ (mineRound ctx st cands).2, m.isStopped = false := by
  intro cands
  induction cands with
  | nil => intro st m hm; simp [mineRound] at hm
  | cons c cs ih =>
    intro st m hm
    simp only [mineRound] at hm
    rcases hx : st.running with _ | _
    · rw [hx] at hm
      simp at hm
    · rw [hx] at hm
      simp only [if_true, List.mem_append] at hm
      rcases hm with hm | hm
      · exact processAttempt_not_stopped ctx st c m hm
      · exact ih _ m hm

theorem progressReport_running (ctx : WorkerCtx) (st : WState) :
    ((progressReport ctx st).1).running = st.running := by
  unfold progressReport
  split <;> rfl

theorem progressReport_attempts (ctx : WorkerCtx) (st : WState) :
    ((progressReport ctx st).1).localAttempts = st.localAttempts := by
  unfold progressReport
  split <;> rfl

theorem progressReport_not_stopped (ctx : WorkerCtx) (st : WState) :
    ∀ m ∈ (progressReport ctx st).2, m.isStopped = false := by
  unfold progressReport
  split
  next =>
    intro m hm
    simp only [List.mem_singleton] at hm
    subst hm
    rfl
  next =>
    intro m hm
    simp at hm

theorem mineLoop_liveness_aux (ctx : WorkerCtx) :
    ∀ (rounds : List (List Cand × Bool)) (st : WState),
      st.running = true → (∀ r ∈ rounds, r.2 = false) →
      ((mineLoop ctx st rounds).1.running = true) ∧
      (∀ m ∈ (mineLoop ctx st rounds).2, m.isStopped = false) ∧
      ((mineLoop ctx st rounds).1.localAttempts = st.localAttempts + totalCands rounds) := by
  intro rounds
  induction rounds with
  | nil =>
    intro st hrun _
    simp only [mineLoop]
    rw [if_pos hrun]
    exact ⟨hrun, by intro m hm; simp at hm, by simp [totalCands]⟩
  | cons r rs ih =>
    intro st hrun hsig
    obtain ⟨cands, sig⟩ := r
    have hs : sig = false := hsig (cands, sig) (List.mem_cons_self _ _)
    subst hs
    simp only [mineLoop]
    rw [if_pos hrun]
    dsimp only
    rw [if_neg (by simp)]
    have h1run : ((mineRound ctx st cands).1).running = true := by
      rw [mineRound_running]; exact hrun
    have h2run : ((progressReport ctx (mineRound ctx st cands).1).1).running = true := by
      rw [progressReport_running]; exact h1run
    have ihh := ih ((progressReport ctx (mineRound ctx st cands).1).1) h2run
      (fun r hr => hsig r (List.mem_cons_of_mem _ hr))
    refine ⟨ihh.1, ?_, ?_⟩
    · intro m hm
      rw [List.mem_append] at hm
      rcases hm with hm | hm
      · rw [List.mem_append] at hm
        rcases hm with hm | hm
        · exact mineRound_not_stopped ctx cands st m hm
        · exact progressReport_not_stopped ctx _ m hm
      · exact ihh.2.1 m hm
    · rw [ihh.2.2, progressReport_attempts, mineRound_attempts ctx cands st hrun]
      simp [totalCands]
      omega

/-- Claim C5: emitting a match never terminates the worker loop.  Over
any schedule of micro-batches in which no stop signal is delivered, a
running worker stays running, never emits the `stopped` acknowledgment,
and keeps generating and testing every offered candidate (its attempt
counter advances by the full candidate count), however many matches were
reported along the way. -/
theorem worker_continues_after_matches (ctx : WorkerCtx) (st : WState)
    (rounds : List (List Cand × Bool))
    (hrun : st.running = true) (hsig : ∀ r ∈ rounds, r.2 = false) :
    ((mineLoop ctx st rounds).1.running = true) ∧
    (∀ m ∈ (mineLoop ctx st rounds).2, m.isStopped = false) ∧
    ((mineLoop ctx st rounds).1.localAttempts = st.localAttempts + totalCands rounds) :=
  mineLoop_liveness_aux ctx rounds st hrun hsig

/-- Witness for C5 at the fixture schedule: one round of two candidates
(the first a match for the context searching prefix `A`), no stop
signal; the worker reports the match, stays running, emits no `stopped`
message, and counts both attempts. -/
theorem worker_continues_after_matches_witness :
    (stW.running = true) ∧
    (∀ r ∈ roundsW, r.2 = false) ∧
    (((mineLoop ctxW stW roundsW).1.running = true) ∧
     (∀ m ∈ (mineLoop ctxW stW roundsW).2, m.isStopped = false) ∧
     ((mineLoop ctxW stW roundsW).1.localAttempts = stW.localAttempts + totalCands roundsW)) :=
  ⟨rfl, by decide, worker_continues_after_matches ctxW stW roundsW rfl (by decide)⟩

/-! ## Persistence-before-notification -/

theorem saveWallet_none_of_write_error (mkdirE writeCliE : Except String Unit)
    (filepath e : String) :
    VanityForge.saveWallet mkdirE (Except.error e) writeCliE filepath = none := by
  cases mkdirE <;> rfl

/-- Claim C3: for every match message the controller receives, the
persistence write completes before `onFound` fires (the `saveDone` event
precedes the `foundCb` event in the emitted sequence); the reported
wallet carries exactly the write's result as `savedPath` — in particular
`none` when the record write fails — the running flag is untouched, and
no stop signal is sent to any worker. -/
theorem found_saved_before_callback (st : CState) (msg : FoundMsg)
    (mkdirE writeE writeCliE : Except String Unit) (filepath : String) :
    ∃ w : FoundWallet,
      ((VanityForge.handleFound st msg
          (VanityForge.saveWallet mkdirE writeE writeCliE filepath)).2
        = [CEvent.saveDone (VanityForge.saveWallet mkdirE writeE writeCliE filepath),
           CEvent.foundCb w (st.foundWallets.length + 1)]) ∧
      (w.savedPath = VanityForge.saveWallet mkdirE writeE writeCliE filepath) ∧
      ((VanityForge.handleFound st msg
          (VanityForge.saveWallet mkdirE writeE writeCliE filepath)).1.isRunning
        = st.isRunning) ∧
      (∀ e, writeE = Except.error e → w.savedPath = none) ∧
      (∀ ev ∈ (VanityForge.handleFound st msg
          (VanityForge.saveWallet mkdirE writeE writeCliE filepath)).2,
        ev.isStopSignal = false) := by
  refine ⟨⟨msg.address, msg.secretKeyArray, msg.matchedSuffix, msg.matchedPrefix,
    msg.attempts, msg.foundAt,
    VanityForge.saveWallet mkdirE writeE writeCliE filepath⟩, ?_, rfl, rfl, ?_, ?_⟩
  · simp [VanityForge.handleFound]
  · intro e he
    subst he
    exact saveWallet_none_of_write_error mkdirE writeCliE filepath e
  · intro ev hev
    simp only [VanityForge.handleFound, List.mem_cons, List.mem_singleton] at hev
    rcases hev with rfl | hev
    · rfl
    · rcases hev with rfl | hev
      · rfl
      · simp at hev

/-- Witness for C3 at a concrete failing record write: the save completes
(with result `none`) before `onFound` fires, the wallet is flagged
unsaved, and the controller still runs. -/
theorem found_saved_before_callback_witness :
    ∃ w : FoundWallet,
      ((VanityForge.handleFound stRun msgW
          (VanityForge.saveWallet (Except.ok ()) (Except.error "EIO") (Except.ok ()) "p")).2
        = [CEvent.saveDone (VanityForge.saveWallet (Except.ok ()) (Except.error "EIO") (Except.ok ()) "p"),
           CEvent.foundCb w (stRun.foundWallets.length + 1)]) ∧
      (w.savedPath = VanityForge.saveWallet (Except.ok ()) (Except.error "EIO") (Except.ok ()) "p") ∧
      ((VanityForge.handleFound stRun msgW
          (VanityForge.saveWallet (Except.ok ()) (Except.error "EIO") (Except.ok ()) "p")).1.isRunning
        = stRun.isRunning) ∧
      (∀ e, (Except.error "EIO" : Except String Unit) = Except.error e → w.savedPath = none) ∧
      (∀ ev ∈ (VanityForge.handleFound stRun msgW
          (VanityForge.saveWallet (Except.ok ()) (Except.error "EIO") (Except.ok ()) "p")).2,
        ev.isStopSignal = false) :=
  found_saved_before_callback stRun msgW (Except.ok ()) (Except.error "EIO")
    (Except.ok ()) "p"

/-! ## Controller start semantics -/

/-- Counterexample to claim C6 as stated: calling `start` with valid
criteria while the controller is Running does NOT reject — it returns
`true`, fires no `onError`, and a fresh run begins (one new worker),
without the caller ever having called `stop`. -/
theorem start_while_running_cex :
    (stRun.isRunning = true) ∧
    ((VanityForge.start 3 stRun cGood).2.1 = true) ∧
    (∀ e ∈ (VanityForge.start 3 stRun cGood).2.2, e.isErrorCb = false) ∧
    ((VanityForge.start 3 stRun cGood).1.workers = [0]) := by
  refine ⟨rfl, by decide, by decide, by decide⟩

/-- Claim C6 amended: `start` called while Running never merges with the
current run — the controller auto-stops it first (stop signals and
terminations for all old workers precede every spawn of the new run),
and then begins the new run from a clean slate: success is reported, the
discovery list is reset, exactly the clamped number of fresh workers is
spawned, and the new criteria replace the old ones. -/
theorem start_auto_stops_then_starts (maxW : Nat) (st : CState) (c : StartCriteria)
    (sfxs : List String)
    (hrun : st.isRunning = true)
    (hsf : parseSuffixes c.suffixString = Except.ok sfxs)
    (hpre : (if c.prefixStr ≠ "" then validateSuffix c.prefixStr else none) = none)
    (htgt : (c.prefixStr = "" && sfxs.isEmpty) = false) :
    ((VanityForge.start maxW st c).2.1 = true) ∧
    ((VanityForge.start maxW st c).1.isRunning = true) ∧
    ((VanityForge.start maxW st c).1.workers = List.range (clampWorkers maxW c.workers)) ∧
    ((VanityForge.start maxW st c).1.foundWallets = []) ∧
    ((VanityForge.start maxW st c).1.currentCriteria
      = some ⟨c.prefixStr, sfxs, c.matchCase⟩) ∧
    ((VanityForge.start maxW st c).2.2
      = (VanityForge.stop st).2
          ++ (List.range (clampWorkers maxW c.workers)).map CEvent.spawn) := by
  simp only [VanityForge.start, hrun, if_true, hsf, hpre, htgt, if_false]
  exact ⟨rfl, rfl, rfl, rfl, rfl, rfl⟩

/-- Witness for the amended C6 theorem at the fixture inputs: a running
controller with two workers, valid criteria (prefix `A`, one worker
requested), parallelism budget 3. -/
theorem start_auto_stops_then_starts_witness :
    (stRun.isRunning = true) ∧
    (parseSuffixes cGood.suffixString = Except.ok []) ∧
    (((VanityForge.start 3 stRun cGood).2.1 = true) ∧
     ((VanityForge.start 3 stRun cGood).1.workers = List.range (clampWorkers 3 cGood.workers)) ∧
     ((VanityForge.start 3 stRun cGood).2.2
       = (VanityForge.stop stRun).2
           ++ (List.range (clampWorkers 3 cGood.workers)).map CEvent.spawn)) := by
  have h := start_auto_stops_then_starts 3 stRun cGood [] rfl rfl (by decide)
    (by decide)
  exact ⟨rfl, rfl, h.1, h.2.2.1, h.2.2.2.2.2⟩

/-! ## Diagnostic message containment -/

theorem isPrefixOf_append_self (l t : List Char) : l.isPrefixOf (l ++ t) = true := by
  induction l with
  | nil => simp [List.isPrefixOf]
  | cons a as ih => simp [List.isPrefixOf, ih]

theorem contains_of_infix (pre n post : List Char) :
    containsSub n (pre ++ (n ++ post)) = true := by
  induction pre with
  | nil =>
    cases n with
    | nil =>
      cases post with
      | nil => rfl
      | cons c rest => simp [containsSub, List.isPrefixOf]
    | cons a as =>
      have h := isPrefixOf_append_self (a :: as) post
      rw [List.cons_append] at h
      simp [containsSub, h]
  | cons c pre ih => simp [containsSub, ih]

theorem containsStr_invalidSuffixMsg_char (ch : Char) (sfx : String) :
    containsStr (invalidSuffixMsg ch sfx) (String.singleton ch) = true := by
  have h := contains_of_infix ("Invalid character " ++ quoteCh).data
    (String.singleton ch).data
    (quoteCh ++ " in suffix " ++ quoteCh ++ sfx ++ quoteCh ++ ". Use Base58 only.").data
  simp only [String.data_append, List.append_assoc] at h
  unfold containsStr invalidSuffixMsg
  simp only [String.data_append, List.append_assoc]
  exact h

theorem containsStr_invalidSuffixMsg_sfx (ch : Char) (sfx : String) :
    containsStr (invalidSuffixMsg ch sfx) sfx = true := by
  have h := contains_of_infix
    ("Invalid character " ++ quoteCh ++ String.singleton ch ++ quoteCh
      ++ " in suffix " ++ quoteCh).data
    sfx.data
    (quoteCh ++ ". Use Base58 only.").data
  simp only [String.data_append, List.append_assoc] at h
  unfold containsStr invalidSuffixMsg
  simp only [String.data_append, List.append_assoc]
  exact h

theorem containsStr_invalidPrefixMsg_char (ch : Char) :
    containsStr (invalidPrefixMsg ch) (String.singleton ch) = true := by
  have h := contains_of_infix ("Invalid character " ++ quoteCh).data
    (String.singleton ch).data
    (quoteCh ++ " in prefix. Use Base58 only.").data
  simp only [String.data_append, List.append_assoc] at h
  unfold containsStr invalidPrefixMsg
  simp only [String.data_append, List.append_assoc]
  exact h

theorem stop_events_not_spawn (st : CState) :
    ∀ e ∈ (VanityForge.stop st).2, e.isSpawn = false := by
  intro e he
  simp only [VanityForge.stop, List.mem_append, List.mem_map] at he
  rcases he with ⟨w, _, rfl⟩ | ⟨w, _, rfl⟩ <;> rfl

theorem startStopPart_not_spawn (st : CState) :
    ∀ e ∈ (if st.isRunning then VanityForge.stop st else (st, [])).2,
      e.isSpawn = false := by
  cases hR : st.isRunning with
  | false => simp
  | true =>
    rw [if_pos rfl]
    exact stop_events_not_spawn st

/-- Counterexample to claim C7 as stated: for the criteria whose prefix
`0a` holds the non-Base58 character `0`, `start` does return `false`,
fires `onError`, and spawns no worker — but the error message identifies
only the offending character, NOT the offending substring: `0a` does not
occur in it. -/
theorem invalid_prefix_message_cex :
    ((VanityForge.start 3 stIdle cBadPre).2.1 = false) ∧
    ((VanityForge.start 3 stIdle cBadPre).2.2
      = [CEvent.errorCb (invalidPrefixMsg (Char.ofNat 48))]) ∧
    (containsStr (invalidPrefixMsg (Char.ofNat 48)) (String.singleton (Char.ofNat 48)) = true) ∧
    (containsStr (invalidPrefixMsg (Char.ofNat 48)) "0a" = false) ∧
    ((VanityForge.start 3 stIdle cBadPre).1.workers = []) ∧
    (∀ e ∈ (VanityForge.start 3 stIdle cBadPre).2.2, e.isSpawn = false) := by
  refine ⟨by decide, by decide, by decide, by decide, by decide, by decide⟩

/-- Claim C7 amended: a prefix or suffix holding a character outside the
Base58 alphabet makes `start` return `false` with no worker spawned and
an `onError` message identifying the offending character; for a SUFFIX
the message also carries the offending suffix string, while for a prefix
the message names the prefix field without echoing its text. -/
theorem invalid_criteria_rejected (maxW : Nat) (st : CState) (c : StartCriteria) :
    (∀ ch sfx, parseSuffixes c.suffixString = Except.error (ch, sfx) →
      ((VanityForge.start maxW st c).2.1 = false) ∧
      (∀ e ∈ (VanityForge.start maxW st c).2.2, e.isSpawn = false) ∧
      (∃ m, CEvent.errorCb m ∈ (VanityForge.start maxW st c).2.2 ∧
        containsStr m (String.singleton ch) = true ∧ containsStr m sfx = true)) ∧
    (∀ ch sfxs, parseSuffixes c.suffixString = Except.ok sfxs →
      validateSuffix c.prefixStr = some ch → c.prefixStr ≠ "" →
      ((VanityForge.start maxW st c).2.1 = false) ∧
      (∀ e ∈ (VanityForge.start maxW st c).2.2, e.isSpawn = false) ∧
      (∃ m, CEvent.errorCb m ∈ (VanityForge.start maxW st c).2.2 ∧
        containsStr m (String.singleton ch) = true)) := by
  constructor
  · intro ch sfx hps
    simp only [VanityForge.start, hps]
    refine ⟨trivial, ?_, ?_⟩
    · intro e he
      rw [List.mem_append] at he
      rcases he with he | he
      · exact startStopPart_not_spawn st e he
      · rw [List.mem_singleton] at he
        subst he
        rfl
    · exact ⟨invalidSuffixMsg ch sfx,
        List.mem_append_right _ (List.mem_singleton.mpr rfl),
        containsStr_invalidSuffixMsg_char ch sfx,
        containsStr_invalidSuffixMsg_sfx ch sfx⟩
  · intro ch sfxs hps hval hne
    simp only [VanityForge.start, hps, if_pos hne, hval]
    refine ⟨trivial, ?_, ?_⟩
    · intro e he
      rw [List.mem_append] at he
      rcases he with he | he
      · exact startStopPart_not_spawn st e he
      · rw [List.mem_singleton] at he
        subst he
        rfl
    · exact ⟨invalidPrefixMsg ch,
        List.mem_append_right _ (List.mem_singleton.mpr rfl),
        containsStr_invalidPrefixMsg_char ch⟩

/-- Witness for the amended C7 theorem, exercising both branches at
fixture inputs: the suffix `ab0` (offending character `0`) and the
prefix `0a` (offending character `0`). -/
theorem invalid_criteria_rejected_witness :
    (parseSuffixes cBadSfx.suffixString = Except.error ((Char.ofNat 48), "ab0")) ∧
    (validateSuffix cBadPre.prefixStr = some (Char.ofNat 48)) ∧
    (((VanityForge.start 3 stIdle cBadSfx).2.1 = false) ∧
     (∀ e ∈ (VanityForge.start 3 stIdle cBadSfx).2.2, e.isSpawn = false) ∧
     (∃ m, CEvent.errorCb m ∈ (VanityForge.start 3 stIdle cBadSfx).2.2 ∧
       containsStr m (String.singleton (Char.ofNat 48)) = true ∧
       containsStr m "ab0" = true)) ∧
    (((VanityForge.start 3 stIdle cBadPre).2.1 = false) ∧
     (∀ e ∈ (VanityForge.start 3 stIdle cBadPre).2.2, e.isSpawn = false) ∧
     (∃ m, CEvent.errorCb m ∈ (VanityForge.start 3 stIdle cBadPre).2.2 ∧
       containsStr m (String.singleton (Char.ofNat 48)) = true)) := by
  refine ⟨rfl, by decide, ?_, ?_⟩
  · exact (invalid_criteria_rejected 3 stIdle cBadSfx).1 (Char.ofNat 48) "ab0" rfl
  · exact (invalid_criteria_rejected 3 stIdle cBadPre).2 (Char.ofNat 48) []
      rfl (by decide) (by decide)

/-! ## Load-path error propagation -/

theorem loadFiles_error_of_mem {J : Type} (cap : CryptoCap J) (key : Option String) :
    ∀ (files : List (String × Except String String))
      (p : String × Except String String),
      p ∈ files → VanityForge.isWalletFile p.1 = true → failsToLoad cap key p.2 →
      ∃ e, VanityForge.loadFiles cap key files = Except.error e := by
  intro files
  induction files with
  | nil =>
    intro p hp
    simp at hp
  | cons q rest ih =>
    intro p hp hwf hfail
    obtain ⟨name, ce⟩ := q
    rw [List.mem_cons] at hp
    rcases hp with rfl | hp
    · rcases hfail with ⟨e, rfl⟩ | ⟨ct, hct, e, hd⟩
      · exact ⟨e, by simp only [VanityForge.loadFiles, hwf, if_true]⟩
      · rw [show (name, ce).2 = ce from rfl] at hct
        subst hct
        exact ⟨e, by simp only [VanityForge.loadFiles, hwf, if_true, hd]⟩
    · by_cases hq : VanityForge.isWalletFile name = true
      · cases ce with
        | error e =>
          exact ⟨e, by simp only [VanityForge.loadFiles, hq, if_true]⟩
        | ok ct =>
          cases hdec : VanityForge.decrypt cap key ct with
          | error e =>
            exact ⟨e, by simp only [VanityForge.loadFiles, hq, if_true, hdec]⟩
          | ok w =>
            obtain ⟨e, he⟩ := ih p hp hwf hfail
            exact ⟨e, by simp only [VanityForge.loadFiles, hq, if_true, hdec, he]⟩
      · obtain ⟨e, he⟩ := ih p hp hwf hfail
        exact ⟨e, by
          simp only [VanityForge.loadFiles, if_neg hq]
          exact he⟩

/-- Counterexample to claim C4 as stated: in the two-file store `filesW`
the first record decrypts fine (to `g`), the second is corrupt — yet
`loadWallets` returns the empty list instead of the other files'
successfully decrypted records. -/
theorem loadWallets_corrupt_aborts_cex :
    (VanityForge.decrypt toyCap none "1#g" = Except.ok "g") ∧
    (VanityForge.loadWallets toyCap none (Except.ok filesW) = []) ∧
    (([] : List String) ≠ ["g"]) := by
  refine ⟨rfl, rfl, by decide⟩

/-- Claim C4 amended: a single corrupt or undecryptable record ABORTS
the whole enumeration — whenever any `wallet_*.json` file of the store
fails to decrypt, `loadWallets` returns the empty list, discarding even
the records that decrypt successfully. -/
theorem loadWallets_corrupt_aborts {J : Type} (cap : CryptoCap J) (key : Option String)
    (files : List (String × Except String String)) (name content : String)
    (hmem : (name, Except.ok content) ∈ files)
    (hwf : VanityForge.isWalletFile name = true)
    (e : String) (hd : VanityForge.decrypt cap key content = Except.error e) :
    VanityForge.loadWallets cap key (Except.ok files) = [] := by
  obtain ⟨e2, he⟩ := loadFiles_error_of_mem cap key files (name, Except.ok content)
    hmem hwf (Or.inr ⟨content, rfl, e, hd⟩)
  simp only [VanityForge.loadWallets, VanityForge.loadWalletsE, he]

/-- Witness for the amended C4 theorem at the fixture store: the corrupt
`wallet_b.json` makes the whole load come back empty. -/
theorem loadWallets_corrupt_aborts_witness :
    (VanityForge.isWalletFile "wallet_b.json" = true) ∧
    (VanityForge.decrypt toyCap none "X" = Except.error "parse") ∧
    (VanityForge.loadWallets toyCap none (Except.ok filesW) = []) := by
  refine ⟨by decide, rfl, ?_⟩
  exact loadWallets_corrupt_aborts toyCap none filesW "wallet_b.json" "X"
    (by simp [filesW]) (by decide) "parse" rfl

/-- Claim C10: `loadWallets` is total toward its caller — it always
returns a list, and returns the empty list whenever anything throws: when
the data directory cannot be read, whenever the underlying enumeration
computation errs, and in particular whenever any wallet file's read or
decryption fails. -/
theorem loadWallets_total {J : Type} (cap : CryptoCap J) (key : Option String)
    (dirE : Except String (List (String × Except String String))) :
    ((∃ e, dirE = Except.error e) → VanityForge.loadWallets cap key dirE = []) ∧
    ((∃ e, VanityForge.loadWalletsE cap key dirE = Except.error e) →
      VanityForge.loadWallets cap key dirE = []) ∧
    (∀ files, dirE = Except.ok files →
      (∃ p ∈ files, VanityForge.isWalletFile p.1 = true ∧ failsToLoad cap key p.2) →
      VanityForge.loadWallets cap key dirE = []) := by
  refine ⟨?_, ?_, ?_⟩
  · rintro ⟨e, rfl⟩
    rfl
  · rintro ⟨e, he⟩
    simp only [VanityForge.loadWallets, he]
  · rintro files rfl ⟨p, hp, hwf, hfail⟩
    obtain ⟨e, he⟩ := loadFiles_error_of_mem cap key files p hp hwf hfail
    simp only [VanityForge.loadWallets, VanityForge.loadWalletsE, he]

/-- Witness for C10: a missing data directory (`readdir` throws) yields
the empty list, as does the fixture store with its corrupt record. -/
theorem loadWallets_total_witness :
    (VanityForge.loadWallets toyCap none (Except.error "ENOENT") = []) ∧
    (VanityForge.loadWallets toyCap none (Except.ok filesW) = []) := by
  refine ⟨?_, ?_⟩
  · exact (loadWallets_total toyCap none (Except.error "ENOENT")).1 ⟨"ENOENT", rfl⟩
  · exact (loadWallets_total toyCap none (Except.ok filesW)).2.2 filesW rfl
      ⟨("wallet_b.json", Except.ok "X"), by simp [filesW], by decide,
        Or.inr ⟨"X", rfl, "parse", rfl⟩⟩

/-- Claim C2: for every JSON-serializable wallet record and every
passphrase configured on the controller — including none at all
(plaintext mode) — decrypting the encryption of the record gives the
record back, for any capability honouring the documented contracts of
scrypt/AES-GCM and the JSON codec, and any fresh random `iv`. -/
theorem encrypt_decrypt_roundtrip {J : Type} (cap : CryptoCap J)
    (key : Option String) (iv : String) (payload : J) :
    VanityForge.decrypt cap key (VanityForge.encrypt cap key iv payload)
      = Except.ok payload := by
  cases key with
  | none =>
    simp [VanityForge.encrypt, VanityForge.decrypt, cap.parse_stringify]
  | some pass =>
    simp [VanityForge.encrypt, VanityForge.decrypt, cap.wrapParse_wrapStringify,
      cap.fromHex_toHex, cap.gcmDec_gcmEnc, cap.parse_stringify]
